import Mathlib

/-! Verification of the Angelscript MCP server's API search pipeline.

This file gives a shallow embedding of the two variants of the
angelscript_searchApi implementation found in the repository:

* the extension-integrated variant (class AngelscriptMcpServer), whose
  enrichment step runs up to 10 concurrent detail fetches through an
  index-cursor window scheduler; and
* the standalone server variant (mcp-server/src/index.ts), which checks
  typedb.HasTypesFromUnreal() before searching and enriches sequentially.

JavaScript runtime values relevant to the argument validation are modelled
by the JSVal / JSNum types below: numbers are rationals extended with NaN
and the two infinities (all claim-relevant arithmetic - floor, min, max,
comparison, Array.slice index conversion - is exact on these), and the
asynchronous completion order of the detail fetches is modelled by an
explicit schedule that picks which in-flight request settles next.
-/

set_option maxHeartbeats 1000000

namespace AngelscriptMcp

/-! ## JavaScript value model -/

/-- A JavaScript number: a rational, NaN, or one of the two infinities. -/
inductive JSNum where
  | nan
  | posInf
  | negInf
  | num (q : ℚ)
deriving DecidableEq, Repr

/-- A JavaScript runtime value, as far as the validation logic inspects one. -/
inductive JSVal where
  | undefined
  | null
  | bool (b : Bool)
  | num (n : JSNum)
  | str (s : String)
  | obj (id : Nat)
deriving DecidableEq, Repr

/-- Math.floor. -/
def jsFloor : JSNum → JSNum
  | JSNum.nan => JSNum.nan
  | JSNum.posInf => JSNum.posInf
  | JSNum.negInf => JSNum.negInf
  | JSNum.num q => JSNum.num (⌊q⌋ : ℚ)

/-- Math.max on two numbers: NaN-propagating, infinity-aware. -/
def jsMax : JSNum → JSNum → JSNum
  | JSNum.nan, _ => JSNum.nan
  | _, JSNum.nan => JSNum.nan
  | JSNum.posInf, _ => JSNum.posInf
  | _, JSNum.posInf => JSNum.posInf
  | JSNum.negInf, b => b
  | a, JSNum.negInf => a
  | JSNum.num a, JSNum.num b => JSNum.num (max a b)

/-- Math.min on two numbers: NaN-propagating, infinity-aware. -/
def jsMin : JSNum → JSNum → JSNum
  | JSNum.nan, _ => JSNum.nan
  | _, JSNum.nan => JSNum.nan
  | JSNum.negInf, _ => JSNum.negInf
  | _, JSNum.negInf => JSNum.negInf
  | JSNum.posInf, b => b
  | a, JSNum.posInf => a
  | JSNum.num a, JSNum.num b => JSNum.num (min a b)

/-- Truncation toward zero, as in ToIntegerOrInfinity. -/
def jsTrunc (q : ℚ) : ℤ := if q < 0 then -(⌊-q⌋) else ⌊q⌋

/-- The effective end index of Array.prototype.slice(0, n) for a list of
length len: NaN becomes 0, a negative index counts from the end, and
List.take clamps a too-large index to the length. -/
def jsSliceEnd (len : Nat) : JSNum → Nat
  | JSNum.nan => 0
  | JSNum.posInf => len
  | JSNum.negInf => 0
  | JSNum.num q =>
    let t := jsTrunc q
    if t < 0 then len - (-t).toNat else t.toNat

/-- Array.prototype.slice(0, n). -/
def jsSlice (l : List α) (n : JSNum) : List α := l.take (jsSliceEnd l.length n)

/-- The nullish-coalescing operator v ?? d. -/
def jsNullish (v d : JSVal) : JSVal :=
  match v with
  | JSVal.undefined => d
  | JSVal.null => d
  | v => v

/-- JavaScript truthiness of a value. -/
def jsTruthy : JSVal → Bool
  | JSVal.undefined => false
  | JSVal.null => false
  | JSVal.bool b => b
  | JSVal.num JSNum.nan => false
  | JSVal.num (JSNum.num q) => decide (q ≠ 0)
  | JSVal.num _ => true
  | JSVal.str s => decide (s ≠ "")
  | JSVal.obj _ => true

/-- Source: typeof params.limit === "number"
      ? Math.min(Math.max(Math.floor(params.limit), 1), 1000) : 500. -/
def validateLimit : JSVal → JSNum
  | JSVal.num n => jsMin (jsMax (jsFloor n) (JSNum.num 1)) (JSNum.num 1000)
  | _ => JSNum.num 500

/-! ## Data model -/

/-- One raw match from the provider (GetAPISearch result element); label is
read as a string, type as an optional string, data is an arbitrary opaque
runtime value. -/
structure ApiMatch where
  label : String
  type : Option String
  data : JSVal
deriving DecidableEq, Repr

/-- interface SearchResultItem. An absent details field is none. -/
structure SearchResultItem where
  label : String
  type : Option String
  data : JSVal
  details : Option String
deriving DecidableEq, Repr

/-- interface SearchPayload. -/
structure SearchPayload where
  query : String
  total : Nat
  returned : Nat
  truncated : Bool
  items : List SearchResultItem
deriving DecidableEq, Repr

/-- items.map(item => ( label, type ?? undefined, data ?? undefined )).
The type field is already optional in the model, so its nullish coalescing
is the identity; data gets null collapsed to undefined. -/
def toItem (m : ApiMatch) : SearchResultItem :=
  { label := m.label, type := m.type
    data := jsNullish m.data JSVal.undefined, details := none }

/-- The possible outcomes of performApiSearch, before rendering to text. -/
inductive ApiResult where
  | noQuery
  | dbEmpty
  | noResults (query : String)
  | payload (p : SearchPayload)
  | failure
deriving DecidableEq, Repr

/-- interface SearchParams, kept as raw runtime values so that the
validation logic can be stated about arbitrary inputs. -/
structure SearchParams where
  query : JSVal
  limit : JSVal
  includeDetails : JSVal
deriving DecidableEq, Repr

/-! ## The enrichment scheduler (extension-integrated variant)

State of the concurrency window inside the enrichment Promise:
nextIndex and the dispatch log grow as startNext issues requests, inFlight
holds the indices of requests dispatched but not yet settled, and results
is the allDetails accumulator in settlement order.  Each settlement
(the then/catch push, the finally decrement, and the refill or resolve)
is modelled as one atomic step; the completion order of the in-flight
requests is chosen by an external schedule, so every environment-chosen
interleaving corresponds to some schedule. -/
structure SchedState where
  nextIndex : Nat
  inFlight : List Nat
  results : List (Nat × Option String)
  dispatched : List Nat
deriving DecidableEq, Repr

/-- The while loop body of startNext, with explicit fuel (the loop
dispatches at most total - nextIndex times, so the wrapper passes exactly
that): while (nextIndex < totalItems and activeCount < K) dispatch the
request for index nextIndex, incrementing nextIndex and activeCount. -/
def startNextAux (K total : Nat) : Nat → SchedState → SchedState
  | 0, s => s
  | fuel + 1, s =>
    if s.nextIndex < total ∧ s.inFlight.length < K then
      startNextAux K total fuel
        { s with
          nextIndex := s.nextIndex + 1
          inFlight := s.inFlight ++ [s.nextIndex]
          dispatched := s.dispatched ++ [s.nextIndex] }
    else s

/-- const startNext = () => ( while-loop filling the window up to K ). -/
def startNext (K total : Nat) (s : SchedState) : SchedState :=
  startNextAux K total (total - s.nextIndex) s

/-- Settlement of the in-flight request at position p: push
( index, outcome index ) onto allDetails (then-branch pushes the details,
catch-branch pushes undefined), decrement activeCount, and in the finally
callback either resolve the promise (nextIndex >= totalItems and
activeCount === 0) or call startNext again. -/
def settle (K total : Nat) (outcome : Nat → Option String) (s : SchedState)
    (p : Fin s.inFlight.length) : SchedState :=
  let i := s.inFlight.get p
  let s1 : SchedState :=
    { s with
      inFlight := s.inFlight.eraseIdx p.val
      results := s.results ++ [(i, outcome i)] }
  if total ≤ s1.nextIndex ∧ s1.inFlight.length = 0 then s1
  else startNext K total s1

/-- Initial scheduler state: nextIndex = 0, activeCount = 0, allDetails empty. -/
def initState : SchedState := ⟨0, [], [], []⟩

/-- Run the scheduler under a schedule: at each step the environment picks
(modulo the number of in-flight requests) which in-flight request settles
next.  A state with an empty window is final: no further callback can run. -/
def runSched (K total : Nat) (outcome : Nat → Option String) :
    List Nat → SchedState → SchedState
  | [], s => s
  | c :: cs, s =>
    if h : s.inFlight.length = 0 then s
    else
      runSched K total outcome cs
        (settle K total outcome s ⟨c % s.inFlight.length, Nat.mod_lt c (Nat.pos_of_ne_zero h)⟩)

/-- payload.items[detail.index].details = detail.details for one entry
(a write outside the range of the list is a no-op; the scheduler never
produces one). -/
def setItemDetails (items : List SearchResultItem) (i : Nat) (d : Option String) :
    List SearchResultItem :=
  match items[i]? with
  | some it => items.set i { it with details := d }
  | none => items

/-- for (const detail of allDetails) payload.items[detail.index].details = detail.details. -/
def applyDetails (items : List SearchResultItem) (ds : List (Nat × Option String)) :
    List SearchResultItem :=
  ds.foldl (fun acc d => setItemDetails acc d.1 d.2) items

/-! ## performApiSearch, extension-integrated variant -/

/-- Observable outcome of one performApiSearch call: the result value,
how many GetAPISearch requests were sent, and the indices for which a
GetAPIDetails request was dispatched, in dispatch order. -/
structure ApiRun where
  result : ApiResult
  searchCalls : Nat
  fetchCalls : List Nat
deriving DecidableEq, Repr

/-- The base payload built from the provider results before enrichment:
total = results.length, items = results.slice(0, limit) mapped to
SearchResultItem, returned = items.length, truncated = total > returned. -/
def basePayload (query : String) (limit : JSNum) (results : List ApiMatch) : SearchPayload :=
  { query := query
    total := results.length
    returned := (jsSlice results limit).length
    truncated := decide (results.length > (jsSlice results limit).length)
    items := (jsSlice results limit).map toItem }

/-- State of the enrichment Promise's scheduler after the initial
startNext call and the settlements picked by the schedule. -/
def finalState (total : Nat) (outcome : Nat → Option String) (sched : List Nat) : SchedState :=
  runSched 10 total outcome sched (startNext 10 total initState)

/-- The enrichment step: when totalItems > 0, await the window scheduler
and, once it resolves, map allDetails back onto the items by index; when
totalItems = 0 the Promise is never constructed and the (empty) allDetails
loop runs directly.  Returns none when, under the given completion
schedule, the Promise still has unsettled fetches - i.e. the await is
still suspended.  The second component is the dispatch log of
GetAPIDetails requests. -/
def enrichItems (outcome : Nat → Option String) (sched : List Nat)
    (items : List SearchResultItem) : Option (List SearchResultItem × List Nat) :=
  if 0 < items.length then
    if (finalState items.length outcome sched).inFlight.length = 0 then
      some (applyDetails items (finalState items.length outcome sched).results,
        (finalState items.length outcome sched).dispatched)
    else none
  else some (applyDetails items [], [])

/-- AngelscriptMcpServer.performApiSearch.  The provider is abstracted as
the search function (the GetAPISearchRequest response for a query) and
outcome (the settlement of the GetAPIDetailsRequest dispatched for item
index i: some details on success, none on rejection).  sched chooses the
completion order of the concurrent detail fetches; the call returns none
when the inner await would still be suspended under that schedule. -/
def performApiSearch (search : String → List ApiMatch) (outcome : Nat → Option String)
    (sched : List Nat) (params : SearchParams) : Option ApiRun :=
  let query : String := match params.query with | JSVal.str s => s.trim | _ => ""
  if query = "" then some ⟨ApiResult.noQuery, 0, []⟩
  else
    let limit := validateLimit params.limit
    let results := search query
    if results.length = 0 then some ⟨ApiResult.noResults query, 1, []⟩
    else
      let payload := basePayload query limit results
      if params.includeDetails ≠ JSVal.bool false then
        (enrichItems outcome sched payload.items).map
          (fun e => ⟨ApiResult.payload { payload with items := e.1 }, 1, e.2⟩)
      else some ⟨ApiResult.payload payload, 1, []⟩

/-! ## Serialization and the tool dispatcher -/

/-- Deterministic rendering of a JSVal; the numeric rendering uses the
numerator/denominator form so that it is total and injective on the model. -/
def serializeJSVal : JSVal → String
  | JSVal.undefined => "undefined"
  | JSVal.null => "null"
  | JSVal.bool b => toString b
  | JSVal.num JSNum.nan => "NaN"
  | JSVal.num JSNum.posInf => "Infinity"
  | JSVal.num JSNum.negInf => "-Infinity"
  | JSVal.num (JSNum.num q) => toString q.num ++ "/" ++ toString q.den
  | JSVal.str s => "\"" ++ s ++ "\""
  | JSVal.obj id => "object-" ++ toString id

/-- One item of the serialized payload, keys in declaration order; absent
optional fields are omitted, as JSON.stringify omits undefined properties. -/
def serializeItem (it : SearchResultItem) : String :=
  "\x7b \"label\": \"" ++ it.label ++ "\""
    ++ (match it.type with | none => "" | some t => ", \"type\": \"" ++ t ++ "\"")
    ++ ", \"data\": " ++ serializeJSVal it.data
    ++ (match it.details with | none => "" | some d => ", \"details\": \"" ++ d ++ "\"")
    ++ " \x7d"

/-- JSON.stringify(payload, null, 2), modelled as a deterministic function
of the payload with the fixed key order query, total, returned, truncated,
items. -/
def serializePayload (p : SearchPayload) : String :=
  "\x7b \"query\": \"" ++ p.query ++ "\", \"total\": " ++ toString p.total
    ++ ", \"returned\": " ++ toString p.returned
    ++ ", \"truncated\": " ++ toString p.truncated
    ++ ", \"items\": [" ++ String.intercalate ", " (p.items.map serializeItem) ++ "] \x7d"

/-- The text returned by performApiSearch for each outcome (the literal
diagnostic strings of the extension-integrated variant). -/
def renderResult : ApiResult → String
  | ApiResult.noQuery => "No query provided. Please supply a search query."
  | ApiResult.dbEmpty =>
      "Angelscript types have not been loaded. The type database is empty. "
        ++ "This typically means the Unreal Engine connection has not been established, "
        ++ "or no type data has been cached. Please ensure the Unreal Editor is running "
        ++ "and connected, or that cached type data is available."
  | ApiResult.noResults q => "No Angelscript API results for \"" ++ q ++ "\"."
  | ApiResult.payload p => serializePayload p
  | ApiResult.failure =>
      "The Angelscript API tool failed to run. Please ensure the language server is "
        ++ "running and try again."

/-- A CallTool response: its text and whether it carries the isError flag
(a success response leaves the flag absent, i.e. falsy). -/
structure ToolResponse where
  text : String
  isError : Bool
deriving DecidableEq, Repr

/-- Observable outcome of one CallTool dispatch. -/
structure DispatchRun where
  response : ToolResponse
  searchCalls : Nat
  fetchCalls : List Nat
deriving DecidableEq, Repr

/-- The CallToolRequestSchema handler: the known tool name routes to
performApiSearch and wraps its text as a success response; any other name
yields the literal unknown-tool text flagged as an error, contacting the
provider not at all.  none again means the inner await is still suspended. -/
def callTool (search : String → List ApiMatch) (outcome : Nat → Option String)
    (sched : List Nat) (name : String) (args : SearchParams) : Option DispatchRun :=
  if name = "angelscript_searchApi" then
    (performApiSearch search outcome sched args).map
      (fun r => ⟨⟨renderResult r.result, false⟩, r.searchCalls, r.fetchCalls⟩)
  else some ⟨⟨"Unknown tool: " ++ name, true⟩, 0, []⟩

/-! ## performApiSearch, standalone server variant (mcp-server/src/index.ts) -/

/-- The standalone server's provider surface: typedb.HasTypesFromUnreal,
api_docs.GetAPISearch, and api_docs.GetAPIDetails (which may throw). -/
structure StdProvider where
  hasTypesFromUnreal : Bool
  getAPISearch : String → List ApiMatch
  getAPIDetails : JSVal → Except Unit String

/-- Observable outcome of one standalone performApiSearch call. -/
structure StdRun where
  result : ApiResult
  searchCalls : Nat
  detailCalls : Nat
deriving DecidableEq, Repr

/-- The sequential enrichment loop of the standalone variant: fetch only
when item.data is truthy, set details only when the returned string is
truthy, swallow a thrown error.  Returns the enriched items and the number
of GetAPIDetails calls made. -/
def enrichSeq (fetch : JSVal → Except Unit String) :
    List SearchResultItem → List SearchResultItem × Nat
  | [] => ([], 0)
  | it :: rest =>
    let tail := enrichSeq fetch rest
    if jsTruthy it.data then
      match fetch it.data with
      | Except.ok d =>
          ((if d ≠ "" then { it with details := some d } else it) :: tail.1, tail.2 + 1)
      | Except.error _ => (it :: tail.1, tail.2 + 1)
    else (it :: tail.1, tail.2)

/-- performApiSearch of the standalone server: same validation, but with
the HasTypesFromUnreal short-circuit after the query check and a
sequential enrichment loop. -/
def performApiSearchStd (p : StdProvider) (params : SearchParams) : StdRun :=
  let query : String := match params.query with | JSVal.str s => s.trim | _ => ""
  if query = "" then ⟨ApiResult.noQuery, 0, 0⟩
  else if p.hasTypesFromUnreal = false then ⟨ApiResult.dbEmpty, 0, 0⟩
  else
    let limit := validateLimit params.limit
    let results := p.getAPISearch query
    if results.length = 0 then ⟨ApiResult.noResults query, 1, 0⟩
    else
      let sliced := jsSlice results limit
      let payload : SearchPayload :=
        { query := query, total := results.length, returned := sliced.length
          truncated := decide (results.length > sliced.length)
          items := sliced.map toItem }
      if params.includeDetails ≠ JSVal.bool false then
        let enriched := enrichSeq p.getAPIDetails payload.items
        ⟨ApiResult.payload { payload with items := enriched.1 }, 1, enriched.2⟩
      else ⟨ApiResult.payload payload, 1, 0⟩

/-! ## Invariants, observables and concrete fixtures -/

/-- Data invariant of a scheduler state: the cursor never passes the item
count, the dispatch log is exactly the indices below the cursor in order,
every dispatched index is exactly once either settled or in flight, and
every settled entry carries the outcome of its own index. -/
def PreInv (total : Nat) (outcome : Nat → Option String) (s : SchedState) : Prop :=
  s.nextIndex ≤ total ∧
  s.dispatched = List.range s.nextIndex ∧
  (s.results.map Prod.fst ++ s.inFlight).Perm (List.range s.nextIndex) ∧
  ∀ q ∈ s.results, q.2 = outcome q.1

/-- Full invariant: the data invariant, the concurrency bound, and window
fullness while work remains (the refill discipline). -/
def Inv (K total : Nat) (outcome : Nat → Option String) (s : SchedState) : Prop :=
  PreInv total outcome s ∧ s.inFlight.length ≤ K ∧
    (s.nextIndex < total → s.inFlight.length = K)

/-- The label, type and data of an item, i.e. everything except details. -/
def itemShape (it : SearchResultItem) : String × Option String × JSVal :=
  (it.label, it.type, it.data)

/-- A concrete three-match provider response, used to instantiate the
claim theorems on explicit inputs. -/
def searchA : String → List ApiMatch := fun _ =>
  [⟨"A", none, JSVal.null⟩, ⟨"B", none, JSVal.obj 1⟩, ⟨"C", some "t", JSVal.obj 2⟩]

/-- A concrete outcome in which exactly the fetch for index 1 fails. -/
def outcomeA : Nat → Option String := fun i => if i = 1 then none else some "doc"

/-- A standalone-server provider with no type data loaded. -/
def noDataProvider : StdProvider :=
  ⟨false, fun _ => [], fun _ => Except.error ()⟩

/-! ## Scheduler lemmas -/

theorem startNextAux_results (K total fuel : Nat) (s : SchedState) :
    (startNextAux K total fuel s).results = s.results := by
  induction fuel generalizing s with
  | zero => rfl
  | succ n ih =>
    rw [startNextAux]
    split
    · rw [ih]
    · rfl

theorem startNext_results (K total : Nat) (s : SchedState) :
    (startNext K total s).results = s.results :=
  startNextAux_results ..

/-- On exit from the dispatch loop its guard has failed, provided the fuel
covered all remaining indices. -/
theorem startNextAux_exit (K total fuel : Nat) (s : SchedState)
    (hfuel : total ≤ s.nextIndex + fuel) :
    ¬((startNextAux K total fuel s).nextIndex < total ∧
      (startNextAux K total fuel s).inFlight.length < K) := by
  induction fuel generalizing s with
  | zero =>
    rw [startNextAux]
    rintro ⟨h1, -⟩
    omega
  | succ n ih =>
    rw [startNextAux]
    split
    · exact ih _ (by simpa using by omega)
    · assumption

theorem startNext_exit (K total : Nat) (s : SchedState) :
    ¬((startNext K total s).nextIndex < total ∧ (startNext K total s).inFlight.length < K) :=
  startNextAux_exit K total _ s (by omega)

/-- The dispatch loop admits a request only while the window is below K. -/
theorem startNextAux_length_le (K total fuel : Nat) (s : SchedState)
    (h : s.inFlight.length ≤ K) :
    (startNextAux K total fuel s).inFlight.length ≤ K := by
  induction fuel generalizing s with
  | zero => exact h
  | succ n ih =>
    rw [startNextAux]
    split
    next hg => exact ih _ (by simpa using hg.2)
    next => exact h

theorem startNext_length_le (K total : Nat) (s : SchedState)
    (h : s.inFlight.length ≤ K) : (startNext K total s).inFlight.length ≤ K :=
  startNextAux_length_le K total _ s h

theorem preInv_startNextAux (K total fuel : Nat) (o : Nat → Option String) (s : SchedState)
    (h : PreInv total o s) : PreInv total o (startNextAux K total fuel s) := by
  induction fuel generalizing s with
  | zero => exact h
  | succ n ih =>
    rw [startNextAux]
    split
    next hg =>
      obtain ⟨h1, h2, h3, h4⟩ := h
      refine ih _ ⟨hg.1, ?_, ?_, h4⟩
      · simp [h2, List.range_succ]
      · simpa [List.range_succ, ← List.append_assoc] using h3.append_right [s.nextIndex]
    next => exact h

theorem preInv_startNext (K total : Nat) (o : Nat → Option String) (s : SchedState)
    (h : PreInv total o s) : PreInv total o (startNext K total s) :=
  preInv_startNextAux K total _ o s h

theorem inv_startNext (K total : Nat) (o : Nat → Option String) (s : SchedState)
    (h : PreInv total o s) (hlen : s.inFlight.length ≤ K) :
    Inv K total o (startNext K total s) := by
  refine ⟨preInv_startNext K total o s h, startNext_length_le K total s hlen, ?_⟩
  intro hlt
  have hex := startNext_exit K total s
  have hge : ¬(startNext K total s).inFlight.length < K := fun hb => hex ⟨hlt, hb⟩
  have := startNext_length_le K total s hlen
  omega

/-- Any list is a permutation of the picked element consed onto the list
with that position erased. -/
theorem perm_get_cons_eraseIdx (l : List α) (p : Fin l.length) :
    l.Perm (l.get p :: l.eraseIdx p.val) := by
  have h1 : l.take p.val ++ l[p.val] :: l.drop (p.val + 1) = l := by
    rw [List.getElem_cons_drop, List.take_append_drop]
  rw [List.eraseIdx_eq_take_drop_succ, List.get_eq_getElem]
  conv_lhs => rw [← h1]
  exact List.perm_middle

theorem inv_settle (K total : Nat) (o : Nat → Option String) (s : SchedState)
    (h : Inv K total o s) (p : Fin s.inFlight.length) :
    Inv K total o (settle K total o s p) := by
  obtain ⟨⟨h1, h2, h3, h4⟩, h5, h6⟩ := h
  have hplt : p.val < s.inFlight.length := p.isLt
  have hlen1 : (s.inFlight.eraseIdx p.val).length = s.inFlight.length - 1 :=
    List.length_eraseIdx_of_lt hplt
  have hperm1 : s.inFlight.Perm (s.inFlight.get p :: s.inFlight.eraseIdx p.val) :=
    perm_get_cons_eraseIdx s.inFlight p
  have hpre :
      PreInv total o
        { s with
          inFlight := s.inFlight.eraseIdx p.val
          results := s.results ++ [(s.inFlight.get p, o (s.inFlight.get p))] } := by
    refine ⟨h1, h2, ?_, ?_⟩
    · refine List.Perm.trans ?_ h3
      simp only [List.map_append, List.map_cons, List.map_nil, List.append_assoc,
        List.cons_append, List.nil_append]
      exact (hperm1.append_left (s.results.map Prod.fst)).symm
    · intro q hq
      rcases List.mem_append.mp hq with hq | hq
      · exact h4 q hq
      · simp only [List.mem_singleton] at hq
        subst hq
        rfl
  rw [settle]
  split
  next hc =>
    exact ⟨hpre, by simp [hlen1]; omega, fun hlt => absurd hlt (by omega)⟩
  next hc =>
    exact inv_startNext K total o _ hpre (by simp [hlen1]; omega)

theorem settle_results (K total : Nat) (o : Nat → Option String) (s : SchedState)
    (p : Fin s.inFlight.length) :
    (settle K total o s p).results =
      s.results ++ [(s.inFlight.get p, o (s.inFlight.get p))] := by
  rw [settle]
  split
  · rfl
  · rw [startNext_results]

theorem inv_runSched (K total : Nat) (o : Nat → Option String) (sched : List Nat)
    (s : SchedState) (h : Inv K total o s) :
    Inv K total o (runSched K total o sched s) := by
  induction sched generalizing s with
  | nil => exact h
  | cons c cs ih =>
    rw [runSched]
    split
    · exact h
    · exact ih _ (inv_settle K total o s h _)

/-- Settled plus in-flight counts add up to the cursor. -/
theorem inv_count (total : Nat) (o : Nat → Option String) (s : SchedState)
    (h : PreInv total o s) :
    s.results.length + s.inFlight.length = s.nextIndex := by
  have := h.2.2.1.length_eq
  simpa using this

/-- Liveness: once the schedule settles at least total completions, the
whole enrichment has completed (the window has drained). -/
theorem runSched_complete (K total : Nat) (o : Nat → Option String) (sched : List Nat)
    (s : SchedState) (h : Inv K total o s)
    (hsched : total ≤ sched.length + s.results.length) :
    (runSched K total o sched s).inFlight.length = 0 := by
  induction sched generalizing s with
  | nil =>
    have hc := inv_count total o s h.1
    have h1 := h.1.1
    simp only [List.length_nil] at hsched
    simp only [runSched]
    omega
  | cons c cs ih =>
    rw [runSched]
    split
    next h0 => exact h0
    next h0 =>
      refine ih _ (inv_settle K total o s h _) ?_
      rw [settle_results]
      simp at hsched ⊢
      omega

/-- The invariant holds right after the initial startNext call. -/
theorem inv_init (K total : Nat) (o : Nat → Option String) :
    Inv K total o (startNext K total initState) := by
  refine inv_startNext K total o initState ⟨?_, ?_, ?_, ?_⟩ ?_ <;> simp [initState]

/-- Summary of a completed enrichment run: once total completions have been
scheduled, the window is empty, every index below total was dispatched
exactly once and in increasing order, the settlement log holds each index
exactly once (in some order), and each settled entry carries the outcome
of its own index. -/
theorem runSched_final (total : Nat) (o : Nat → Option String) (sched : List Nat)
    (hsched : total ≤ sched.length) :
    (runSched 10 total o sched (startNext 10 total initState)).inFlight = [] ∧
    (runSched 10 total o sched (startNext 10 total initState)).nextIndex = total ∧
    (runSched 10 total o sched (startNext 10 total initState)).dispatched = List.range total ∧
    ((runSched 10 total o sched (startNext 10 total initState)).results.map Prod.fst).Perm
      (List.range total) ∧
    ∀ q ∈ (runSched 10 total o sched (startNext 10 total initState)).results, q.2 = o q.1 := by
  have hinv := inv_runSched 10 total o sched _ (inv_init 10 total o)
  have hlen0 : (startNext 10 total initState).results.length = 0 := by
    rw [startNext_results]
    rfl
  have hdone := runSched_complete 10 total o sched _ (inv_init 10 total o) (by omega)
  set s := runSched 10 total o sched (startNext 10 total initState) with hs
  have hnil : s.inFlight = [] := List.length_eq_zero.mp hdone
  obtain ⟨⟨h1, h2, h3, h4⟩, h5, h6⟩ := hinv
  have hnt : s.nextIndex = total := by
    by_contra hne
    have hlt : s.nextIndex < total := lt_of_le_of_ne h1 hne
    have h10 := h6 hlt
    rw [hnil] at h10
    simp at h10
  refine ⟨hnil, hnt, ?_, ?_, h4⟩
  · rw [h2, hnt]
  · have h3b := h3
    rw [hnil, hnt] at h3b
    simpa using h3b

/-! ## Lemmas about mapping details back by index -/

theorem setItemDetails_length (items : List SearchResultItem) (i : Nat) (d : Option String) :
    (setItemDetails items i d).length = items.length := by
  rw [setItemDetails]
  split <;> simp

theorem setItemDetails_getElem?_ne (items : List SearchResultItem) (i j : Nat)
    (d : Option String) (h : i ≠ j) :
    (setItemDetails items i d)[j]? = items[j]? := by
  rw [setItemDetails]
  split
  · rw [List.getElem?_set_ne h]
  · rfl

theorem setItemDetails_getElem?_self (items : List SearchResultItem) (i : Nat)
    (d : Option String) :
    (setItemDetails items i d)[i]? =
      items[i]?.map (fun it => { it with details := d }) := by
  rw [setItemDetails]
  split
  next it heq =>
    have hlt : i < items.length := by
      by_contra hge
      rw [List.getElem?_eq_none (Nat.le_of_not_lt hge)] at heq
      cases heq
    rw [List.getElem?_set_self hlt, heq]
    rfl
  next heq =>
    rw [heq]
    rfl

theorem applyDetails_cons (items : List SearchResultItem) (d : Nat × Option String)
    (ds : List (Nat × Option String)) :
    applyDetails items (d :: ds) = applyDetails (setItemDetails items d.1 d.2) ds := rfl

theorem applyDetails_length (items : List SearchResultItem) (ds : List (Nat × Option String)) :
    (applyDetails items ds).length = items.length := by
  induction ds generalizing items with
  | nil => rfl
  | cons d ds ih => rw [applyDetails_cons, ih, setItemDetails_length]

/-- An index never written keeps its original item. -/
theorem applyDetails_getElem?_not_mem (items : List SearchResultItem)
    (ds : List (Nat × Option String)) (j : Nat) (h : j ∉ ds.map Prod.fst) :
    (applyDetails items ds)[j]? = items[j]? := by
  induction ds generalizing items with
  | nil => rfl
  | cons d ds ih =>
    simp only [List.map_cons, List.mem_cons, not_or] at h
    rw [applyDetails_cons, ih _ h.2, setItemDetails_getElem?_ne _ _ _ _ (fun he => h.1 he.symm)]

/-- When each index is written at most once, the written index gets exactly
its recorded details. -/
theorem applyDetails_getElem?_mem (items : List SearchResultItem)
    (ds : List (Nat × Option String)) (i : Nat) (v : Option String)
    (hnd : (ds.map Prod.fst).Nodup) (hmem : (i, v) ∈ ds) :
    (applyDetails items ds)[i]? =
      items[i]?.map (fun it => { it with details := v }) := by
  induction ds generalizing items with
  | nil => cases hmem
  | cons d ds ih =>
    simp only [List.map_cons, List.nodup_cons] at hnd
    rw [applyDetails_cons]
    rcases List.mem_cons.mp hmem with heq | hmem2
    · subst heq
      rw [applyDetails_getElem?_not_mem _ _ _ hnd.1, setItemDetails_getElem?_self]
    · have hd : d.1 ≠ i := by
        intro he
        exact hnd.1 (he ▸ List.mem_map_of_mem Prod.fst hmem2)
      rw [ih _ hnd.2 hmem2, setItemDetails_getElem?_ne _ _ _ _ hd]

/-- When the written indices are exactly 0..items.length-1 (in any order)
and each entry records the outcome of its index, the result at every
position j is the original item with details set to outcome j. -/
theorem applyDetails_getElem? (items : List SearchResultItem)
    (ds : List (Nat × Option String)) (o : Nat → Option String)
    (hperm : (ds.map Prod.fst).Perm (List.range items.length))
    (hout : ∀ q ∈ ds, q.2 = o q.1) (j : Nat) :
    (applyDetails items ds)[j]? =
      items[j]?.map (fun it => { it with details := o j }) := by
  by_cases hj : j < items.length
  · have hjmem : j ∈ ds.map Prod.fst := hperm.mem_iff.mpr (List.mem_range.mpr hj)
    obtain ⟨q, hq, hq1⟩ := List.mem_map.mp hjmem
    have hqe : (j, o j) = q := by
      have hq2 : q.2 = o j := by rw [hout q hq, hq1]
      rw [← hq2, ← hq1]
    exact applyDetails_getElem?_mem _ _ _ _
      (hperm.nodup_iff.mpr (List.nodup_range _)) (hqe ▸ hq)
  · rw [List.getElem?_eq_none (by simpa [applyDetails_length] using Nat.le_of_not_lt hj),
      List.getElem?_eq_none (Nat.le_of_not_lt hj)]
    rfl

theorem setItemDetails_shape (items : List SearchResultItem) (i : Nat) (d : Option String)
    (j : Nat) :
    ((setItemDetails items i d).map itemShape)[j]? = (items.map itemShape)[j]? := by
  rcases eq_or_ne i j with rfl | hne
  · rw [List.getElem?_map, List.getElem?_map, setItemDetails_getElem?_self]
    cases items[i]? <;> rfl
  · rw [List.getElem?_map, List.getElem?_map, setItemDetails_getElem?_ne _ _ _ _ hne]

/-- Writing details never reorders items or changes their label, type or
data. -/
theorem applyDetails_shape (items : List SearchResultItem) (ds : List (Nat × Option String)) :
    (applyDetails items ds).map itemShape = items.map itemShape := by
  induction ds generalizing items with
  | nil => rfl
  | cons d ds ih =>
    rw [applyDetails_cons, ih]
    exact List.ext_getElem? (setItemDetails_shape _ _ _)

/-- runSched_final restated for finalState. -/
theorem finalState_spec (total : Nat) (o : Nat → Option String) (sched : List Nat)
    (hsched : total ≤ sched.length) :
    (finalState total o sched).inFlight = [] ∧
    (finalState total o sched).nextIndex = total ∧
    (finalState total o sched).dispatched = List.range total ∧
    ((finalState total o sched).results.map Prod.fst).Perm (List.range total) ∧
    ∀ q ∈ (finalState total o sched).results, q.2 = o q.1 :=
  runSched_final total o sched hsched

/-- Under a schedule long enough to settle every item, the enrichment step
terminates, dispatches exactly the indices 0..N-1 in order, and produces
exactly the input items with details set to the outcome of their own
index. -/
theorem enrichItems_spec (o : Nat → Option String) (sched : List Nat)
    (items : List SearchResultItem) (hsched : items.length ≤ sched.length) :
    ∃ enriched : List SearchResultItem,
      enrichItems o sched items = some (enriched, List.range items.length) ∧
      enriched.length = items.length ∧
      (∀ j, enriched[j]? =
        items[j]?.map (fun it : SearchResultItem => { it with details := o j })) ∧
      enriched.map itemShape = items.map itemShape := by
  by_cases hpos : 0 < items.length
  · obtain ⟨hnil, hnt, hdisp, hperm, hout⟩ := finalState_spec items.length o sched hsched
    refine ⟨applyDetails items (finalState items.length o sched).results, ?_,
      applyDetails_length _ _, ?_, applyDetails_shape _ _⟩
    · rw [enrichItems, if_pos hpos, if_pos (by rw [hnil]; rfl), hdisp]
    · intro j
      exact applyDetails_getElem? _ _ o hperm hout j
  · have h0 : items = [] := List.length_eq_zero.mp (Nat.eq_zero_of_not_pos hpos)
    subst h0
    exact ⟨[], by rw [enrichItems]; rfl, rfl, fun j => rfl, rfl⟩

/-! ## Evaluation helpers and path lemmas -/

/-- String.trim is defined through well-founded recursion, so concrete
instances are evaluated by unfolding its loops once per character. -/
theorem trim_empty : "".trim = "" := by
  rw [String.trim, Substring.trim]
  rw [Substring.takeWhileAux]
  rw [dif_neg (by decide)]
  rw [Substring.takeRightWhileAux]
  rw [dif_neg (by decide)]
  decide

theorem trim_x : "x".trim = "x" := by
  rw [String.trim, Substring.trim]
  rw [Substring.takeWhileAux]
  rw [dif_pos (by decide), if_neg (by decide)]
  rw [Substring.takeRightWhileAux]
  rw [dif_pos (by decide), if_pos (by decide)]
  decide

/-- A validated numeric limit that is already an integer in range is kept. -/
theorem validateLimit_natCast (l : ℕ) (h1 : 1 ≤ l) (h2 : l ≤ 1000) :
    validateLimit (JSVal.num (JSNum.num (l : ℚ))) = JSNum.num (l : ℚ) := by
  have hfl : (⌊(l : ℚ)⌋ : ℚ) = (l : ℚ) := by
    rw [Int.floor_natCast]
    push_cast
    rfl
  simp only [validateLimit, jsFloor, jsMax, jsMin, hfl]
  rw [max_eq_left (by exact_mod_cast h1), min_eq_left (by exact_mod_cast h2)]

/-- Slicing by a nonnegative integer limit is take. -/
theorem jsSlice_natCast (l : List α) (n : ℕ) :
    jsSlice l (JSNum.num (n : ℚ)) = l.take n := by
  have ht : jsTrunc (n : ℚ) = (n : ℤ) := by
    rw [jsTrunc, if_neg (not_lt.mpr (Nat.cast_nonneg n)), Int.floor_natCast]
  simp only [jsSlice, jsSliceEnd, ht]
  rw [if_neg (by omega)]
  simp

/-- Slicing by NaN yields the empty list. -/
theorem jsSlice_nan (l : List α) : jsSlice l JSNum.nan = [] := rfl

/-- The NaN limit survives validation as NaN. -/
theorem validateLimit_nan : validateLimit (JSVal.num JSNum.nan) = JSNum.nan := rfl

/-- Path lemma: with a string query that trims non-empty, and a non-empty
provider result list, and details requested, performApiSearch awaits the
enrichment of the base payload's items and wraps its outcome. -/
theorem performApiSearch_payload (search : String → List ApiMatch) (o : Nat → Option String)
    (sched : List Nat) (params : SearchParams) (q : String)
    (hq : params.query = JSVal.str q) (hqt : q.trim ≠ "")
    (hinc : params.includeDetails ≠ JSVal.bool false)
    (hne : (search q.trim).length ≠ 0) :
    performApiSearch search o sched params =
      (enrichItems o sched
          (basePayload q.trim (validateLimit params.limit) (search q.trim)).items).map
        (fun e =>
          ⟨ApiResult.payload
            { basePayload q.trim (validateLimit params.limit) (search q.trim) with
              items := e.1 }, 1, e.2⟩) := by
  simp only [performApiSearch, hq]
  rw [if_neg hqt, if_neg hne, if_pos hinc]

/-- Path lemma: same branch but with includeDetails literally false; the
enrichment component is skipped entirely. -/
theorem performApiSearch_noDetails (search : String → List ApiMatch) (o : Nat → Option String)
    (sched : List Nat) (params : SearchParams) (q : String)
    (hq : params.query = JSVal.str q) (hqt : q.trim ≠ "")
    (hinc : params.includeDetails = JSVal.bool false)
    (hne : (search q.trim).length ≠ 0) :
    performApiSearch search o sched params =
      some ⟨ApiResult.payload
        (basePayload q.trim (validateLimit params.limit) (search q.trim)), 1, []⟩ := by
  simp only [performApiSearch, hq]
  rw [if_neg hqt, if_neg hne, if_neg (by simp [hinc])]

/-! ## Claim theorems -/

/-- C1: during enrichment, the number of fetchDetail requests dispatched
but not yet settled never exceeds K = 10 - for every item count, every
outcome and every completion schedule (i.e. at every reachable scheduler
instant) - and moreover the window refills to exactly 10 whenever
undispatched work remains, rather than waiting for a whole batch. -/
theorem c1_concurrency_window_bound (total : Nat) (o : Nat → Option String)
    (sched : List Nat) :
    (finalState total o sched).inFlight.length ≤ 10 ∧
    ((finalState total o sched).nextIndex < total →
      (finalState total o sched).inFlight.length = 10) := by
  have h := inv_runSched 10 total o sched _ (inv_init 10 total o)
  exact ⟨h.2.1, h.2.2⟩

/-- C8: a callTool invocation whose tool name is not angelscript_searchApi
returns (rather than throws) a response whose text is exactly the string
Unknown tool: followed by the name, flagged as an error, with zero
provider calls. -/
theorem c8_unknown_tool (search : String → List ApiMatch) (o : Nat → Option String)
    (sched : List Nat) (name : String) (args : SearchParams)
    (h : name ≠ "angelscript_searchApi") :
    callTool search o sched name args =
      some ⟨⟨"Unknown tool: " ++ name, true⟩, 0, []⟩ := by
  unfold callTool
  rw [if_neg h]

theorem c8_unknown_tool_witness :
    callTool searchA outcomeA [] "foo" ⟨JSVal.str "x", JSVal.undefined, JSVal.undefined⟩ =
      some ⟨⟨"Unknown tool: " ++ "foo", true⟩, 0, []⟩ :=
  c8_unknown_tool searchA outcomeA [] "foo" _ (by decide)

/-- C9: with an empty item list (N = 0) the enrichment step completes
immediately: the initial startNext dispatches nothing, enrichItems
returns (for every schedule, i.e. without suspending) with no fetch
calls; and end-to-end, reaching N = 0 via the NaN limit, performApiSearch
returns one settled run with an empty fetch log no matter the schedule. -/
theorem c9_empty_enrichment (search : String → List ApiMatch) (o : Nat → Option String)
    (q : String) (hqt : q.trim ≠ "") (hne : (search q.trim).length ≠ 0) :
    startNext 10 0 initState = initState ∧
    (∀ sched, enrichItems o sched [] = some ([], [])) ∧
    ∃ r : ApiRun, r.fetchCalls = [] ∧
      ∀ sched, performApiSearch search o sched
        ⟨JSVal.str q, JSVal.num JSNum.nan, JSVal.undefined⟩ = some r := by
  refine ⟨rfl, fun sched => rfl, ?_⟩
  refine ⟨⟨ApiResult.payload
    { basePayload q.trim JSNum.nan (search q.trim) with items := [] }, 1, []⟩, rfl, ?_⟩
  intro sched
  rw [performApiSearch_payload search o sched
    ⟨JSVal.str q, JSVal.num JSNum.nan, JSVal.undefined⟩ q rfl hqt
    (fun h => JSVal.noConfusion h) hne]
  rfl

theorem c9_empty_enrichment_witness :
    startNext 10 0 initState = initState ∧
    (∀ sched, enrichItems outcomeA sched [] = some ([], [])) ∧
    ∃ r : ApiRun, r.fetchCalls = [] ∧
      ∀ sched, performApiSearch searchA outcomeA sched
        ⟨JSVal.str "x", JSVal.num JSNum.nan, JSVal.undefined⟩ = some r :=
  c9_empty_enrichment searchA outcomeA "x" (by simp [trim_x]) (by decide)

/-- C10: a NaN limit argument has JavaScript type number, floor-and-clamp
propagates it as NaN, the slice is then empty, and for a non-empty result
list performApiSearch returns a payload with returned = 0, items = [] and
truncated = true, breaking returned = min(total, limit) for every limit in
[1, 1000]. -/
theorem c10_nan_limit (search : String → List ApiMatch) (o : Nat → Option String)
    (sched : List Nat) (q : String) (inc : JSVal)
    (hqt : q.trim ≠ "") (hne : (search q.trim).length ≠ 0) :
    validateLimit (JSVal.num JSNum.nan) = JSNum.nan ∧
    ∃ p : SearchPayload,
      performApiSearch search o sched ⟨JSVal.str q, JSVal.num JSNum.nan, inc⟩ =
        some ⟨ApiResult.payload p, 1, []⟩ ∧
      p.items = [] ∧ p.returned = 0 ∧ p.truncated = true ∧
      ∀ l : ℕ, 1 ≤ l → l ≤ 1000 → p.returned ≠ min p.total l := by
  have htr : (basePayload q.trim JSNum.nan (search q.trim)).truncated = true :=
    decide_eq_true_iff.mpr (Nat.pos_of_ne_zero hne)
  have hmin : ∀ l : ℕ, 1 ≤ l → l ≤ 1000 →
      (0 : ℕ) ≠ min (search q.trim).length l := by
    intro l h1 h2
    have := Nat.pos_of_ne_zero hne
    omega
  by_cases hinc : inc = JSVal.bool false
  · subst hinc
    exact ⟨rfl, basePayload q.trim JSNum.nan (search q.trim),
      performApiSearch_noDetails search o sched _ q rfl hqt rfl hne,
      rfl, rfl, htr, hmin⟩
  · refine ⟨rfl, { basePayload q.trim JSNum.nan (search q.trim) with items := [] },
      ?_, rfl, rfl, htr, hmin⟩
    rw [performApiSearch_payload search o sched _ q rfl hqt hinc hne]
    rfl

theorem c10_nan_limit_witness :
    validateLimit (JSVal.num JSNum.nan) = JSNum.nan ∧
    ∃ p : SearchPayload,
      performApiSearch searchA outcomeA [] ⟨JSVal.str "x", JSVal.num JSNum.nan,
        JSVal.undefined⟩ = some ⟨ApiResult.payload p, 1, []⟩ ∧
      p.items = [] ∧ p.returned = 0 ∧ p.truncated = true ∧
      ∀ l : ℕ, 1 ≤ l → l ≤ 1000 → p.returned ≠ min p.total l :=
  c10_nan_limit searchA outcomeA [] "x" JSVal.undefined (by simp [trim_x]) (by decide)

/-- The enrichment input (the base payload's items) is never longer than
the full provider result list. -/
theorem basePayload_items_length_le (q : String) (lim : JSNum) (results : List ApiMatch) :
    (basePayload q lim results).items.length ≤ results.length := by
  simp only [basePayload, jsSlice, List.length_map]
  exact List.length_take_le' _ _

/-- C2: with details requested, a fetchDetail call is dispatched exactly
once for every index 0..N-1 of the item list (the fetch log is exactly
[0, 1, ..., N-1]), and when the fetch of exactly one index j fails while
every other index succeeds, performApiSearch still returns a payload in
which item j lacks details and every other item i carries the details its
own fetch returned. -/
theorem c2_single_failure (search : String → List ApiMatch) (o : Nat → Option String)
    (sched : List Nat) (params : SearchParams) (q : String) (j : Nat) (f : Nat → String)
    (hq : params.query = JSVal.str q) (hqt : q.trim ≠ "")
    (hinc : params.includeDetails ≠ JSVal.bool false)
    (hne : (search q.trim).length ≠ 0)
    (hsched : (search q.trim).length ≤ sched.length)
    (hj : o j = none) (hothers : ∀ i, i ≠ j → o i = some (f i)) :
    ∃ p : SearchPayload,
      performApiSearch search o sched params =
        some ⟨ApiResult.payload p, 1, List.range p.items.length⟩ ∧
      p.items.length = (jsSlice (search q.trim) (validateLimit params.limit)).length ∧
      (j < p.items.length → ∃ it, p.items[j]? = some it ∧ it.details = none) ∧
      ∀ i, i < p.items.length → i ≠ j →
        ∃ it, p.items[i]? = some it ∧ it.details = some (f i) := by
  have hlen : (basePayload q.trim (validateLimit params.limit) (search q.trim)).items.length
      ≤ sched.length :=
    le_trans (basePayload_items_length_le _ _ _) hsched
  obtain ⟨enriched, henr, hlen2, hget, hshape⟩ :=
    enrichItems_spec o sched
      (basePayload q.trim (validateLimit params.limit) (search q.trim)).items hlen
  have hbitems : (basePayload q.trim (validateLimit params.limit) (search q.trim)).items =
      (jsSlice (search q.trim) (validateLimit params.limit)).map toItem := rfl
  refine ⟨{ basePayload q.trim (validateLimit params.limit) (search q.trim) with
    items := enriched }, ?_, ?_, ?_, ?_⟩
  · rw [performApiSearch_payload search o sched params q hq hqt hinc hne, henr]
    show some _ = some _
    rw [Option.some_inj]
    show (⟨ApiResult.payload _, 1,
      List.range (basePayload q.trim (validateLimit params.limit)
        (search q.trim)).items.length⟩ : ApiRun) = _
    rw [show ({ basePayload q.trim (validateLimit params.limit) (search q.trim) with
      items := enriched } : SearchPayload).items = enriched from rfl, hlen2]
  · show enriched.length = _
    rw [hlen2, hbitems, List.length_map]
  · intro hjlt
    have hjb : j < (basePayload q.trim (validateLimit params.limit)
        (search q.trim)).items.length := by
      rw [← hlen2]
      exact hjlt
    obtain ⟨it0, hit0⟩ : ∃ x, (basePayload q.trim (validateLimit params.limit)
        (search q.trim)).items[j]? = some x := by
      rw [List.getElem?_eq_getElem hjb]
      exact ⟨_, rfl⟩
    refine ⟨{ it0 with details := o j }, ?_, by rw [hj]⟩
    show enriched[j]? = _
    rw [hget j, hit0]
    rfl
  · intro i hilt hij
    have hib : i < (basePayload q.trim (validateLimit params.limit)
        (search q.trim)).items.length := by
      rw [← hlen2]
      exact hilt
    obtain ⟨it0, hit0⟩ : ∃ x, (basePayload q.trim (validateLimit params.limit)
        (search q.trim)).items[i]? = some x := by
      rw [List.getElem?_eq_getElem hib]
      exact ⟨_, rfl⟩
    refine ⟨{ it0 with details := o i }, ?_, by rw [hothers i hij]⟩
    show enriched[i]? = _
    rw [hget i, hit0]
    rfl

theorem c2_single_failure_witness :
    ∃ p : SearchPayload,
      performApiSearch searchA outcomeA [0, 0, 0]
          ⟨JSVal.str "x", JSVal.undefined, JSVal.undefined⟩ =
        some ⟨ApiResult.payload p, 1, List.range p.items.length⟩ ∧
      p.items.length =
        (jsSlice (searchA "x".trim) (validateLimit JSVal.undefined)).length ∧
      (1 < p.items.length → ∃ it, p.items[1]? = some it ∧ it.details = none) ∧
      ∀ i, i < p.items.length → i ≠ 1 →
        ∃ it, p.items[i]? = some it ∧ it.details = some "doc" :=
  c2_single_failure searchA outcomeA [0, 0, 0]
    ⟨JSVal.str "x", JSVal.undefined, JSVal.undefined⟩ "x" 1 (fun _ => "doc")
    rfl (by simp [trim_x]) (by decide) (by decide) (by decide) rfl
    (fun i hi => by simp [outcomeA, hi])

/-- C3: for one and the same query, provider response and per-index fetch
outcome, any two completion schedules produce the very same ApiRun (hence
the identical serialized payload), and the detail stored at index i is
always the outcome of the fetch dispatched for items[i], so the final item
order is the provider order regardless of completion timing. -/
theorem c3_order_independence (search : String → List ApiMatch) (o : Nat → Option String)
    (params : SearchParams) (q : String) (sched1 sched2 : List Nat)
    (hq : params.query = JSVal.str q) (hqt : q.trim ≠ "")
    (hinc : params.includeDetails ≠ JSVal.bool false)
    (hne : (search q.trim).length ≠ 0)
    (h1 : (search q.trim).length ≤ sched1.length)
    (h2 : (search q.trim).length ≤ sched2.length) :
    performApiSearch search o sched1 params = performApiSearch search o sched2 params ∧
    ∃ r : ApiRun, ∃ p : SearchPayload,
      performApiSearch search o sched1 params = some r ∧
      r.result = ApiResult.payload p ∧
      (∀ i, p.items[i]? =
        ((jsSlice (search q.trim) (validateLimit params.limit)).map toItem)[i]?.map
          (fun it : SearchResultItem => { it with details := o i })) ∧
      ∀ r2, performApiSearch search o sched2 params = some r2 →
        renderResult r2.result = renderResult r.result := by
  have hlen1 : (basePayload q.trim (validateLimit params.limit) (search q.trim)).items.length
      ≤ sched1.length :=
    le_trans (basePayload_items_length_le _ _ _) h1
  have hlen2 : (basePayload q.trim (validateLimit params.limit) (search q.trim)).items.length
      ≤ sched2.length :=
    le_trans (basePayload_items_length_le _ _ _) h2
  obtain ⟨e1, he1, hle1, hg1, hs1⟩ :=
    enrichItems_spec o sched1
      (basePayload q.trim (validateLimit params.limit) (search q.trim)).items hlen1
  obtain ⟨e2, he2, hle2, hg2, hs2⟩ :=
    enrichItems_spec o sched2
      (basePayload q.trim (validateLimit params.limit) (search q.trim)).items hlen2
  have heq : e1 = e2 := List.ext_getElem? (fun i => by rw [hg1 i, hg2 i])
  have hrw1 := performApiSearch_payload search o sched1 params q hq hqt hinc hne
  have hrw2 := performApiSearch_payload search o sched2 params q hq hqt hinc hne
  rw [he1] at hrw1
  rw [he2, ← heq] at hrw2
  refine ⟨by rw [hrw1, hrw2], ⟨ApiResult.payload
    { basePayload q.trim (validateLimit params.limit) (search q.trim) with items := e1 },
    1, List.range (basePayload q.trim (validateLimit params.limit)
      (search q.trim)).items.length⟩,
    { basePayload q.trim (validateLimit params.limit) (search q.trim) with items := e1 },
    by rw [hrw1]; rfl, rfl, ?_, ?_⟩
  · intro i
    show e1[i]? = _
    exact hg1 i
  · intro r2 hr2
    rw [hrw2] at hr2
    simp only [Option.map_some', Option.some_inj] at hr2
    rw [← hr2]

theorem c3_order_independence_witness :
    performApiSearch searchA outcomeA [0, 0, 0]
        ⟨JSVal.str "x", JSVal.undefined, JSVal.undefined⟩ =
      performApiSearch searchA outcomeA [2, 1, 0]
        ⟨JSVal.str "x", JSVal.undefined, JSVal.undefined⟩ ∧
    ∃ r : ApiRun, ∃ p : SearchPayload,
      performApiSearch searchA outcomeA [0, 0, 0]
          ⟨JSVal.str "x", JSVal.undefined, JSVal.undefined⟩ = some r ∧
      r.result = ApiResult.payload p ∧
      (∀ i, p.items[i]? =
        ((jsSlice (searchA "x".trim) (validateLimit JSVal.undefined)).map toItem)[i]?.map
          (fun it : SearchResultItem => { it with details := outcomeA i })) ∧
      ∀ r2, performApiSearch searchA outcomeA [2, 1, 0]
          ⟨JSVal.str "x", JSVal.undefined, JSVal.undefined⟩ = some r2 →
        renderResult r2.result = renderResult r.result :=
  c3_order_independence searchA outcomeA
    ⟨JSVal.str "x", JSVal.undefined, JSVal.undefined⟩ "x" [0, 0, 0] [2, 1, 0]
    rfl (by simp [trim_x]) (by decide) (by decide) (by decide) (by decide)

/-- C5: for a non-empty provider result list and a validated in-range
integer limit, the payload satisfies total = the full result count,
returned = min(total, limit), truncated iff total > returned, and items is
exactly the first limit matches in provider order (same labels, types and
data, in the same order), with or without enrichment. -/
theorem c5_payload_counts (search : String → List ApiMatch) (o : Nat → Option String)
    (sched : List Nat) (q : String) (l : ℕ) (inc : JSVal)
    (hqt : q.trim ≠ "") (hne : (search q.trim).length ≠ 0)
    (h1 : 1 ≤ l) (h2 : l ≤ 1000)
    (hsched : (search q.trim).length ≤ sched.length) :
    ∃ r : ApiRun, ∃ p : SearchPayload,
      performApiSearch search o sched
          ⟨JSVal.str q, JSVal.num (JSNum.num (l : ℚ)), inc⟩ = some r ∧
      r.result = ApiResult.payload p ∧
      p.total = (search q.trim).length ∧
      p.returned = min p.total l ∧
      (p.truncated = true ↔ p.returned < p.total) ∧
      p.items.map itemShape =
        ((search q.trim).take l).map (fun m => itemShape (toItem m)) := by
  have hva : validateLimit (JSVal.num (JSNum.num (l : ℚ))) = JSNum.num (l : ℚ) :=
    validateLimit_natCast l h1 h2
  have hsl : jsSlice (search q.trim) (validateLimit (JSVal.num (JSNum.num (l : ℚ)))) =
      (search q.trim).take l := by
    rw [hva, jsSlice_natCast]
  have hbitems : (basePayload q.trim (validateLimit (JSVal.num (JSNum.num (l : ℚ))))
      (search q.trim)).items = ((search q.trim).take l).map toItem := by
    show (jsSlice (search q.trim) (validateLimit (JSVal.num (JSNum.num (l : ℚ))))).map toItem
      = _
    rw [hsl]
  have hret : (basePayload q.trim (validateLimit (JSVal.num (JSNum.num (l : ℚ))))
      (search q.trim)).returned = min (search q.trim).length l := by
    show (jsSlice (search q.trim) (validateLimit (JSVal.num (JSNum.num (l : ℚ))))).length = _
    rw [hsl, List.length_take, Nat.min_comm]
  have htr : (basePayload q.trim (validateLimit (JSVal.num (JSNum.num (l : ℚ))))
        (search q.trim)).truncated = true ↔
      (basePayload q.trim (validateLimit (JSVal.num (JSNum.num (l : ℚ))))
        (search q.trim)).returned < (search q.trim).length := by
    rw [basePayload, decide_eq_true_iff]
  have hshape0 : (basePayload q.trim (validateLimit (JSVal.num (JSNum.num (l : ℚ))))
      (search q.trim)).items.map itemShape =
      ((search q.trim).take l).map (fun m => itemShape (toItem m)) := by
    rw [hbitems, List.map_map]
    rfl
  by_cases hinc : inc = JSVal.bool false
  · subst hinc
    exact ⟨_, basePayload q.trim (validateLimit (JSVal.num (JSNum.num (l : ℚ))))
      (search q.trim),
      performApiSearch_noDetails search o sched _ q rfl hqt rfl hne,
      rfl, rfl, hret, htr, hshape0⟩
  · have hlen : (basePayload q.trim (validateLimit (JSVal.num (JSNum.num (l : ℚ))))
        (search q.trim)).items.length ≤ sched.length :=
      le_trans (basePayload_items_length_le _ _ _) hsched
    obtain ⟨enriched, henr, hlene, hget, hshape⟩ :=
      enrichItems_spec o sched
        (basePayload q.trim (validateLimit (JSVal.num (JSNum.num (l : ℚ))))
          (search q.trim)).items hlen
    refine ⟨⟨ApiResult.payload { basePayload q.trim (validateLimit (JSVal.num
        (JSNum.num (l : ℚ)))) (search q.trim) with items := enriched }, 1,
      List.range (basePayload q.trim (validateLimit (JSVal.num (JSNum.num (l : ℚ))))
        (search q.trim)).items.length⟩,
      { basePayload q.trim (validateLimit (JSVal.num (JSNum.num (l : ℚ))))
        (search q.trim) with items := enriched }, ?_, rfl, rfl, hret, htr, ?_⟩
    · rw [performApiSearch_payload search o sched
        ⟨JSVal.str q, JSVal.num (JSNum.num (l : ℚ)), inc⟩ q rfl hqt hinc hne, henr]
      rfl
    · show enriched.map itemShape = _
      rw [hshape, hshape0]

theorem c5_payload_counts_witness :
    ∃ r : ApiRun, ∃ p : SearchPayload,
      performApiSearch searchA outcomeA [0, 0, 0]
          ⟨JSVal.str "x", JSVal.num (JSNum.num ((2 : ℕ) : ℚ)), JSVal.undefined⟩ = some r ∧
      r.result = ApiResult.payload p ∧
      p.total = (searchA "x".trim).length ∧
      p.returned = min p.total 2 ∧
      (p.truncated = true ↔ p.returned < p.total) ∧
      p.items.map itemShape =
        ((searchA "x".trim).take 2).map (fun m => itemShape (toItem m)) :=
  c5_payload_counts searchA outcomeA [0, 0, 0] "x" 2 JSVal.undefined
    (by simp [trim_x]) (by decide) (by decide) (by decide) (by decide)

/-- C4 (counterexample): an invocation whose query is empty, against a
provider reporting no data loaded, returns the no-query message - not the
database-empty message - because the query check precedes the
HasTypesFromUnreal check; so the claim as stated (every invocation with no
data loaded yields the database-empty message) fails. -/
theorem c4_counterexample :
    noDataProvider.hasTypesFromUnreal = false ∧
    (performApiSearchStd noDataProvider
        ⟨JSVal.str "", JSVal.undefined, JSVal.undefined⟩).result = ApiResult.noQuery ∧
    ApiResult.noQuery ≠ ApiResult.dbEmpty := by
  refine ⟨rfl, ?_, fun h => ApiResult.noConfusion h⟩
  simp [performApiSearchStd, trim_empty]

/-- C4 (amended): for every invocation whose query is a string with a
non-empty trim, if the provider reports no data loaded, the standalone
performApiSearch returns the fixed database-empty message and makes zero
provider calls (neither search nor fetchDetail). -/
theorem c4_db_empty_short_circuit (p : StdProvider) (params : SearchParams) (q : String)
    (hq : params.query = JSVal.str q) (hqt : q.trim ≠ "")
    (hdb : p.hasTypesFromUnreal = false) :
    performApiSearchStd p params = ⟨ApiResult.dbEmpty, 0, 0⟩ := by
  simp only [performApiSearchStd, hq]
  rw [if_neg hqt, if_pos hdb]

theorem c4_db_empty_short_circuit_witness :
    performApiSearchStd noDataProvider ⟨JSVal.str "x", JSVal.undefined, JSVal.undefined⟩ =
      ⟨ApiResult.dbEmpty, 0, 0⟩ :=
  c4_db_empty_short_circuit noDataProvider
    ⟨JSVal.str "x", JSVal.undefined, JSVal.undefined⟩ "x" rfl (by simp [trim_x]) rfl

/-- C6: limit validation is a total function that never throws: a numeric
argument is floored and then clamped through max 1 and min 1000 (and for
every finite numeric value the clamped result is an integer in [1, 1000]);
every non-number argument (including absent) yields exactly 500; in
particular -5, 0, 0.5, 500000, "abc" and absent all land in [1, 1000]. -/
theorem c6_limit_validation :
    (∀ v : JSVal, (∀ n, v ≠ JSVal.num n) → validateLimit v = JSNum.num 500) ∧
    (∀ r : ℚ, validateLimit (JSVal.num (JSNum.num r)) =
        JSNum.num (min (max (⌊r⌋ : ℚ) 1) 1000) ∧
      (1 : ℚ) ≤ min (max (⌊r⌋ : ℚ) 1) 1000 ∧ min (max (⌊r⌋ : ℚ) 1) 1000 ≤ 1000) ∧
    validateLimit (JSVal.num (JSNum.num (-5))) = JSNum.num 1 ∧
    validateLimit (JSVal.num (JSNum.num 0)) = JSNum.num 1 ∧
    validateLimit (JSVal.num (JSNum.num (1 / 2))) = JSNum.num 1 ∧
    validateLimit (JSVal.num (JSNum.num 500000)) = JSNum.num 1000 ∧
    validateLimit (JSVal.str "abc") = JSNum.num 500 ∧
    validateLimit JSVal.undefined = JSNum.num 500 := by
  have hnum : ∀ r : ℚ, validateLimit (JSVal.num (JSNum.num r)) =
      JSNum.num (min (max (⌊r⌋ : ℚ) 1) 1000) := fun r => rfl
  refine ⟨?_, ?_, ?_, ?_, ?_, ?_, rfl, rfl⟩
  · intro v hv
    cases v with
    | undefined => rfl
    | null => rfl
    | bool b => rfl
    | num n => exact absurd rfl (hv n)
    | str s => rfl
    | obj id => rfl
  · intro r
    exact ⟨hnum r, le_min (le_max_right _ _) (by norm_num), min_le_right _ _⟩
  · rw [hnum]
    norm_num
  · rw [hnum]
    norm_num
  · rw [hnum]
    norm_num
  · rw [hnum]
    norm_num

theorem c6_limit_validation_witness :
    validateLimit (JSVal.str "abc") = JSNum.num 500 :=
  c6_limit_validation.1 (JSVal.str "abc") (fun _ h => JSVal.noConfusion h)

/-- C7: includeDetails is treated as true for every argument value other
than the literal boolean false (the whole run is identical to the run with
literal true), and with literal false the enrichment component is never
invoked: the GetAPIDetails dispatch log is empty whatever the item count,
and every item of a returned payload lacks a details field. -/
theorem c7_include_details (search : String → List ApiMatch) (o : Nat → Option String)
    (sched : List Nat) (qv lv v : JSVal) (hv : v ≠ JSVal.bool false) :
    performApiSearch search o sched ⟨qv, lv, v⟩ =
      performApiSearch search o sched ⟨qv, lv, JSVal.bool true⟩ ∧
    ∀ r : ApiRun, performApiSearch search o sched ⟨qv, lv, JSVal.bool false⟩ = some r →
      r.fetchCalls = [] ∧
      ∀ p : SearchPayload, r.result = ApiResult.payload p →
        ∀ it ∈ p.items, it.details = none := by
  constructor
  · simp only [performApiSearch]
    rw [if_pos hv, if_pos (show JSVal.bool true ≠ JSVal.bool false from
      fun h => by cases h)]
  · intro r hr
    simp only [performApiSearch] at hr
    split at hr
    next =>
      obtain rfl : (⟨ApiResult.noQuery, 0, []⟩ : ApiRun) = r := Option.some_inj.mp hr
      exact ⟨rfl, fun p hp => absurd hp (fun h => ApiResult.noConfusion h)⟩
    next =>
      split at hr
      next =>
        obtain rfl : (⟨ApiResult.noResults _, 1, []⟩ : ApiRun) = r := Option.some_inj.mp hr
        exact ⟨rfl, fun p hp => absurd hp (fun h => ApiResult.noConfusion h)⟩
      next =>
        rw [if_neg (fun h : JSVal.bool false ≠ JSVal.bool false => h rfl)] at hr
        obtain rfl : (⟨ApiResult.payload _, 1, []⟩ : ApiRun) = r := Option.some_inj.mp hr
        refine ⟨rfl, fun p hp => ?_⟩
        cases hp
        intro it hit
        obtain ⟨m, hm, rfl⟩ := List.mem_map.mp hit
        rfl

theorem c7_include_details_witness :
    performApiSearch searchA outcomeA [0, 0, 0]
        ⟨JSVal.str "x", JSVal.undefined, JSVal.undefined⟩ =
      performApiSearch searchA outcomeA [0, 0, 0]
        ⟨JSVal.str "x", JSVal.undefined, JSVal.bool true⟩ ∧
    ∀ r : ApiRun, performApiSearch searchA outcomeA [0, 0, 0]
        ⟨JSVal.str "x", JSVal.undefined, JSVal.bool false⟩ = some r →
      r.fetchCalls = [] ∧
      ∀ p : SearchPayload, r.result = ApiResult.payload p →
        ∀ it ∈ p.items, it.details = none :=
  c7_include_details searchA outcomeA [0, 0, 0] (JSVal.str "x") JSVal.undefined
    JSVal.undefined (by decide)

end AngelscriptMcp
